import Mathlib

/-!
Verification of the retrieval-and-templating core of `src/app.py`
(vedic-ethics-robot).

The Python source is shallowly embedded as follows.

* Similarity scores (numpy floats) are modelled as rationals `ℚ`.
* `sklearn`'s TF-IDF cosine similarity is an external library computation;
  it is modelled as a parameter `sim : String → String → ℚ` giving the
  similarity of a query against one corpus text.  Cosine similarity of
  nonnegative TF-IDF vectors is nonnegative, which is taken as a hypothesis
  (`0 ≤ sim q t`) where a claim needs it; `dotSum_nonneg` below grounds it.
* `numpy`'s `sims.argsort()` is modelled as a stable ascending sort of the
  index list: ties are kept in increasing index order, which is what numpy
  produces on the small arrays this app sorts (its introsort falls back to
  insertion sort below 16 elements).  The sort is realised with
  `List.insertionSort` under a lexicographic (value, index) order, which is
  linear, so the sorted output is uniquely determined.
* `json.loads` is an external library function; the per-line loader is
  parameterised by `parseLine : String → Option Doc`, `none` modelling a
  `JSONDecodeError`.  A Python dict read with `d.get(...)` defaults is
  modelled by `Option`-valued fields; `d["passage"]` on a dict without that
  key raises `KeyError`, modelled by `textsOf` returning `none`.
* Python's `f"{conf:.2f}"` is modelled by `fmt2`, rounding to two decimal
  places with ties to even, as IEEE-754 formatting does.
-/

/-! ### Safety filter (`RISKY_KEYWORDS`, `is_risky`, src/app.py lines 39-45) -/

def RISKY_KEYWORDS : List String :=
  ["medical", "diagnose", "law", "illegal", "violence", "self-harm", "weapon",
   "suicide", "harm yourself", "attack", "revenge", "hack", "exploit"]

/-- Prefix test on character lists; `prefixCheck n h` holds iff `n` begins `h`. -/
def prefixCheck : List Char → List Char → Bool
  | [], _ => true
  | _ :: _, [] => false
  | a :: as, b :: bs => a == b && prefixCheck as bs

/-- Substring test on character lists, modelling Python's `k in ql`. -/
def substrOf (needle : List Char) : List Char → Bool
  | [] => needle.isEmpty
  | c :: t => prefixCheck needle (c :: t) || substrOf needle t

/-- `is_risky` from src/app.py: lowercase the query, then test every fixed
keyword for substring containment. -/
def is_risky (q : String) : Bool :=
  RISKY_KEYWORDS.any (fun k => substrOf k.data q.toLower.data)

theorem prefixCheck_iff (n h : List Char) :
    prefixCheck n h = true ↔ ∃ t, n ++ t = h := by
  induction n generalizing h with
  | nil =>
    simp only [prefixCheck, List.nil_append, true_iff]
    exact ⟨h, rfl⟩
  | cons a as ih =>
    cases h with
    | nil =>
      simp [prefixCheck]
    | cons b bs =>
      simp only [prefixCheck, Bool.and_eq_true, beq_iff_eq, ih]
      constructor
      · rintro ⟨rfl, t, rfl⟩
        exact ⟨t, rfl⟩
      · rintro ⟨t, hEq⟩
        rw [List.cons_append] at hEq
        obtain ⟨h1, h2⟩ := List.cons.inj hEq
        exact ⟨h1, t, h2⟩

theorem substrOf_iff (n h : List Char) :
    substrOf n h = true ↔ ∃ pre post, h = pre ++ (n ++ post) := by
  induction h with
  | nil =>
    simp only [substrOf, List.isEmpty_iff]
    constructor
    · rintro rfl
      exact ⟨[], [], rfl⟩
    · rintro ⟨pre, post, hEq⟩
      rcases List.append_eq_nil.mp hEq.symm with ⟨rfl, h2⟩
      rcases List.append_eq_nil.mp h2 with ⟨rfl, -⟩
      rfl
  | cons c t ih =>
    simp only [substrOf, Bool.or_eq_true, prefixCheck_iff, ih]
    constructor
    · rintro (⟨post, hpost⟩ | ⟨pre, post, rfl⟩)
      · exact ⟨[], post, hpost.symm⟩
      · exact ⟨c :: pre, post, rfl⟩
    · rintro ⟨pre, post, hEq⟩
      cases pre with
      | nil => exact Or.inl ⟨post, hEq.symm⟩
      | cons a pre' =>
        rw [List.cons_append] at hEq
        obtain ⟨-, h2⟩ := List.cons.inj hEq
        exact Or.inr ⟨pre', post, h2⟩

/-- C1: `is_risky q` is true iff the lowercased query contains at least one of
the fixed hardcoded risk keywords as a substring; in particular it is true for
any query containing a configured keyword case-insensitively and false for a
query containing none of them. -/
theorem is_risky_iff_keyword_substring (q : String) :
    is_risky q = true ↔
      ∃ k ∈ RISKY_KEYWORDS, ∃ pre post, q.toLower.data = pre ++ (k.data ++ post) := by
  simp [is_risky, List.any_eq_true, substrOf_iff]

/-! ### Corpus loader (src/app.py lines 21-34) -/

/-- One parsed JSON record.  Each recognised field is optional in the raw
dict; `d.get("id","")`-style defaults are applied later in `metaOf`. -/
structure Doc where
  id : Option String := none
  source : Option String := none
  theme : Option (List String) := none
  passage : Option String := none
deriving DecidableEq

/-- The load loop of src/app.py lines 21-27: parse each line, append on
success, silently skip a line whose parse fails (`except ... pass`). -/
def loadDocs (parseLine : String → Option Doc) (lines : List String) : List Doc :=
  lines.filterMap parseLine

/-- `texts = [d["passage"] for d in docs]` (line 29): the whole comprehension
raises `KeyError` — modelled as `none` — if any record lacks `passage`. -/
def textsOf : List Doc → Option (List String)
  | [] => some []
  | d :: ds =>
    match d.passage, textsOf ds with
    | some t, some ts => some (t :: ts)
    | _, _ => none

/-- `meta = [(d.get("id",""), d.get("source",""), d.get("theme",[])) for d in docs]`
(line 30). -/
def metaOf (docs : List Doc) : List (String × String × List String) :=
  docs.map (fun d => (d.id.getD "", d.source.getD "", d.theme.getD []))

theorem textsOf_length (docs : List Doc) (texts : List String)
    (h : textsOf docs = some texts) : texts.length = docs.length := by
  induction docs generalizing texts with
  | nil =>
    simp only [textsOf, Option.some.injEq] at h
    subst h
    rfl
  | cons d ds ih =>
    cases hp : d.passage with
    | none => simp [textsOf, hp] at h
    | some t =>
      cases hts : textsOf ds with
      | none => simp [textsOf, hp, hts] at h
      | some ts =>
        simp only [textsOf, hp, hts, Option.some.injEq] at h
        subst h
        simp [ih ts hts]

/-- C9: one well-formed line plus one syntactically invalid line load to a
corpus holding exactly the well-formed record (size 1); the malformed line is
skipped independently and loading continues. -/
theorem loadDocs_one_good_one_bad (parseLine : String → Option Doc)
    (good bad : String) (d : Doc)
    (hg : parseLine good = some d) (hb : parseLine bad = none) :
    loadDocs parseLine [good, bad] = [d] ∧
      (loadDocs parseLine [good, bad]).length = 1 := by
  simp [loadDocs, List.filterMap_cons, hg, hb]

/-- A demo `json.loads` stand-in: one recognised line whose record lacks the
`passage` field, everything else a parse failure. -/
def parseDemo : String → Option Doc := fun s =>
  if s = "line1" then
    some { id := some "x", source := some "s", theme := none, passage := none }
  else none

/-- Witness for C9 at a concrete parse function and concrete lines. -/
theorem loadDocs_one_good_one_bad_witness :
    (parseDemo "line1" =
        some { id := some "x", source := some "s", theme := none, passage := none } ∧
      parseDemo "nonsense" = none) ∧
    (loadDocs parseDemo ["line1", "nonsense"] =
        [{ id := some "x", source := some "s", theme := none, passage := none }] ∧
      (loadDocs parseDemo ["line1", "nonsense"]).length = 1) :=
  ⟨⟨rfl, rfl⟩,
    loadDocs_one_good_one_bad parseDemo "line1" "nonsense"
      { id := some "x", source := some "s", theme := none, passage := none } rfl rfl⟩

/-- Counterexample to C8: a record whose line parses but whose `passage` field
is missing is NOT skipped — it is kept in `docs` — and building the indexed
text sequence then fails (`KeyError`, modelled as `none`) instead of
continuing. -/
theorem loader_keeps_record_missing_passage :
    loadDocs parseDemo ["line1"] =
      [{ id := some "x", source := some "s", theme := none, passage := none }] ∧
    textsOf [{ id := some "x", source := some "s", theme := none, passage := none }] =
      none :=
  ⟨rfl, rfl⟩

/-- C8 amended: the loader does not skip a parseable record that lacks the
required `passage` field; building the indexed text sequence fails (KeyError)
exactly when some loaded record lacks `passage`. -/
theorem textsOf_none_iff_missing_passage (docs : List Doc) :
    textsOf docs = none ↔ ∃ d ∈ docs, d.passage = none := by
  induction docs with
  | nil => simp [textsOf]
  | cons d ds ih =>
    cases hp : d.passage with
    | none => simp [textsOf, hp]
    | some t =>
      cases hts : textsOf ds with
      | none =>
        simp only [textsOf, hp, hts, List.mem_cons]
        constructor
        · intro _
          obtain ⟨d', hd', hpd'⟩ := ih.mp hts
          exact ⟨d', Or.inr hd', hpd'⟩
        · intro _
          trivial
      | some ts =>
        simp only [textsOf, hp, hts, List.mem_cons]
        constructor
        · intro hcontra
          exact absurd hcontra (by simp)
        · rintro ⟨d', hd' | hd', hpd'⟩
          · rw [hd', hp] at hpd'
            exact absurd hpd' (by simp)
          · have : textsOf ds = none := ih.mpr ⟨d', hd', hpd'⟩
            rw [this] at hts
            exact absurd hts (by simp)

/-! ### Similarity index and retrieval (src/app.py lines 50-64) -/

/-- A per-query projection of one corpus position: score plus metadata plus
text, as built by the loop in `retrieve`. -/
structure RetrievedPassage where
  score : ℚ
  id : String
  source : String
  themes : List String
  passage : String
deriving DecidableEq

/-- `cosine_similarity(qv, X).ravel()` (line 52): one score per corpus text,
with the similarity computation `sim` kept as a parameter (it is an external
sklearn library call). -/
def simsOf (sim : String → String → ℚ) (query : String) (texts : List String) : List ℚ :=
  texts.map (sim query)

/-- The order `sims.argsort()` sorts index `i` before index `j`: strictly
smaller value, or equal values with `i` first (stable ascending sort). -/
def idxLe (xs : List ℚ) (i j : ℕ) : Prop :=
  xs.getD i 0 < xs.getD j 0 ∨ (xs.getD i 0 = xs.getD j 0 ∧ i ≤ j)

instance (xs : List ℚ) : DecidableRel (idxLe xs) := fun _ _ =>
  inferInstanceAs (Decidable (_ ∨ _))

instance (xs : List ℚ) : IsTotal ℕ (idxLe xs) where
  total i j := by
    unfold idxLe
    rcases lt_trichotomy (xs.getD i 0) (xs.getD j 0) with h | h | h
    · exact Or.inl (Or.inl h)
    · rcases Nat.le_total i j with hij | hij
      · exact Or.inl (Or.inr ⟨h, hij⟩)
      · exact Or.inr (Or.inr ⟨h.symm, hij⟩)
    · exact Or.inr (Or.inl h)

instance (xs : List ℚ) : IsTrans ℕ (idxLe xs) where
  trans i j l hij hjl := by
    unfold idxLe at hij hjl ⊢
    rcases hij with h1 | ⟨e1, le1⟩
    · rcases hjl with h2 | ⟨e2, _⟩
      · exact Or.inl (h1.trans h2)
      · exact Or.inl (lt_of_lt_of_eq h1 e2)
    · rcases hjl with h2 | ⟨e2, le2⟩
      · exact Or.inl (lt_of_eq_of_lt e1 h2)
      · exact Or.inr ⟨e1.trans e2, le1.trans le2⟩

/-- `sims.argsort()` (line 53): the index list `0, …, n-1` sorted ascending
by score, ties kept in increasing index order. -/
def argsortAsc (xs : List ℚ) : List ℕ :=
  (List.range xs.length).insertionSort (idxLe xs)

/-- `idx = sims.argsort()[::-1][:k]` (line 53): reverse the ascending argsort,
then keep the first `k` positions. -/
def topIdx (sim : String → String → ℚ) (texts : List String) (query : String)
    (k : ℕ) : List ℕ :=
  (argsortAsc (simsOf sim query texts)).reverse.take k

/-- `retrieve` (lines 50-64): project each selected index to its score,
metadata triple and text. -/
def retrieve (sim : String → String → ℚ) (texts : List String)
    (meta : List (String × String × List String)) (query : String) (k : ℕ) :
    List RetrievedPassage :=
  (topIdx sim texts query k).map (fun i =>
    { score := (simsOf sim query texts).getD i 0
      id := (meta.getD i ("", "", [])).1
      source := (meta.getD i ("", "", [])).2.1
      themes := (meta.getD i ("", "", [])).2.2
      passage := texts.getD i "" })

theorem argsortAsc_perm (xs : List ℚ) :
    (argsortAsc xs).Perm (List.range xs.length) :=
  List.perm_insertionSort _ _

theorem argsortAsc_length (xs : List ℚ) : (argsortAsc xs).length = xs.length := by
  rw [argsortAsc, List.length_insertionSort, List.length_range]

theorem mem_topIdx {sim : String → String → ℚ} {texts : List String}
    {query : String} {k i : ℕ} (h : i ∈ topIdx sim texts query k) :
    i < texts.length := by
  unfold topIdx at h
  have h1 := List.take_subset _ _ h
  rw [List.mem_reverse] at h1
  have h2 := (argsortAsc_perm _).mem_iff.mp h1
  simpa [List.mem_range, simsOf] using h2

theorem topIdx_pairwise (sim : String → String → ℚ) (texts : List String)
    (query : String) (k : ℕ) :
    List.Pairwise (fun i j => idxLe (simsOf sim query texts) j i)
      (topIdx sim texts query k) := by
  have hs : List.Pairwise (idxLe (simsOf sim query texts))
      (argsortAsc (simsOf sim query texts)) :=
    List.sorted_insertionSort _ _
  have hrev := List.pairwise_reverse.mpr hs
  exact List.Pairwise.sublist (List.take_sublist _ _) hrev

theorem topIdx_nodup (sim : String → String → ℚ) (texts : List String)
    (query : String) (k : ℕ) : (topIdx sim texts query k).Nodup := by
  have h1 : (argsortAsc (simsOf sim query texts)).Nodup :=
    (argsortAsc_perm _).symm.nodup (List.nodup_range _)
  exact List.Nodup.sublist (List.take_sublist _ _) (List.nodup_reverse.mpr h1)

theorem map_getD_range {α : Type} (l : List α) (d : α) :
    (List.range l.length).map (fun i => l.getD i d) = l := by
  apply List.ext_getElem
  · simp
  · intro i h1 h2
    rw [List.getElem_map, List.getElem_range, List.getD_eq_getElem l d h2]

theorem idxLe_le {xs : List ℚ} {i j : ℕ} (h : idxLe xs i j) :
    xs.getD i 0 ≤ xs.getD j 0 := by
  unfold idxLe at h
  rcases h with h | ⟨e, -⟩
  · exact le_of_lt h
  · exact le_of_eq e

theorem simsOf_getD_nonneg {sim : String → String → ℚ} {q : String}
    (hpos : ∀ t, 0 ≤ sim q t) (texts : List String) (i : ℕ) :
    0 ≤ (simsOf sim q texts).getD i 0 := by
  rcases Nat.lt_or_ge i (simsOf sim q texts).length with h | h
  · rw [List.getD_eq_getElem _ _ h]
    simp only [simsOf, List.getElem_map]
    exact hpos _
  · exact le_of_eq (List.getD_eq_default _ _ h).symm

/-- Grounding for the `0 ≤ sim q t` hypotheses used below: a dot product of
entrywise-nonnegative vectors — such as TF-IDF weight vectors — is
nonnegative, and cosine similarity divides such a dot product by a
nonnegative product of norms, so it is nonnegative as well. -/
theorem dotSum_nonneg : ∀ (v w : List ℚ), (∀ x ∈ v, 0 ≤ x) → (∀ x ∈ w, 0 ≤ x) →
    0 ≤ (List.zipWith (fun a b => a * b) v w).sum
  | [], _, _, _ => by simp
  | _ :: _, [], _, _ => by simp
  | a :: as, b :: bs, hv, hw => by
    simp only [List.zipWith_cons_cons, List.sum_cons]
    have h1 : 0 ≤ a * b := mul_nonneg (hv a (by simp)) (hw b (by simp))
    have h2 := dotSum_nonneg as bs (fun x hx => hv x (List.mem_cons_of_mem _ hx))
      (fun x hx => hw x (List.mem_cons_of_mem _ hx))
    exact add_nonneg h1 h2

/-- Constant-zero similarity: the concrete instance used by witnesses, the
situation the spec calls "query with no vocabulary overlap". -/
def sim0 : String → String → ℚ := fun _ _ => 0

def texts2 : List String := ["alpha", "beta"]

def meta2 : List (String × String × List String) := [("1", "s1", []), ("2", "s2", [])]

/-- Counterexample to C2: on a two-passage corpus where both passages score
equally, `retrieve` returns corpus position 1 BEFORE corpus position 0 — the
reverse of original corpus order — because `argsort()[::-1]` reverses the
stable ascending argsort, reversing tie groups with it. -/
theorem retrieve_tie_not_original_order :
    ((retrieve sim0 texts2 meta2 "q" 2).map (fun r => r.score) = [0, 0]) ∧
    ((retrieve sim0 texts2 meta2 "q" 2).map (fun r => r.passage) =
      ["beta", "alpha"]) := by
  with_unfolding_all decide

/-- C2 amended: the ranking produced by `retrieve` lists indices in
non-increasing score order, and within a tie group the corpus indices appear
in strictly DECREASING (reverse corpus) order, since the code reverses a
stable ascending argsort. -/
theorem topIdx_ties_reverse_corpus_order (sim : String → String → ℚ)
    (texts : List String) (q : String) (k : ℕ) :
    List.Pairwise (fun i j =>
      (simsOf sim q texts).getD j 0 < (simsOf sim q texts).getD i 0 ∨
      ((simsOf sim q texts).getD i 0 = (simsOf sim q texts).getD j 0 ∧ j < i))
      (topIdx sim texts q k) := by
  have hp := (topIdx_pairwise sim texts q k).and (topIdx_nodup sim texts q k)
  refine List.Pairwise.imp (fun {i j} hij => ?_) hp
  obtain ⟨hle, hne⟩ := hij
  unfold idxLe at hle
  rcases hle with h | ⟨e, hji⟩
  · exact Or.inl h
  · exact Or.inr ⟨e.symm, lt_of_le_of_ne hji (Ne.symm hne)⟩

/-- C3: `retrieve` returns exactly `min k corpus_size` passages, and when `k`
is at least the corpus size it returns every corpus text with no padding. -/
theorem retrieve_length_eq_min (sim : String → String → ℚ) (texts : List String)
    (meta : List (String × String × List String)) (q : String) (k : ℕ)
    (_hk : 1 ≤ k) (_hn : 1 ≤ texts.length) :
    (retrieve sim texts meta q k).length = min k texts.length ∧
    (texts.length ≤ k →
      ((retrieve sim texts meta q k).map (fun r => r.passage)).Perm texts) := by
  constructor
  · rw [retrieve, List.length_map, topIdx, List.length_take, List.length_reverse,
      argsortAsc_length]
    simp [simsOf]
  · intro hkk
    have htake : (argsortAsc (simsOf sim q texts)).reverse.take k =
        (argsortAsc (simsOf sim q texts)).reverse := by
      apply List.take_of_length_le
      rw [List.length_reverse, argsortAsc_length]
      simpa [simsOf] using hkk
    have hxs : (simsOf sim q texts).length = texts.length := by
      simp [simsOf]
    have hperm : ((argsortAsc (simsOf sim q texts)).reverse).Perm
        (List.range texts.length) := by
      rw [← hxs]
      exact (List.reverse_perm _).trans (argsortAsc_perm _)
    have hmap := hperm.map (fun i => texts.getD i "")
    rw [map_getD_range] at hmap
    rw [retrieve, topIdx, htake, List.map_map]
    exact hmap

/-- Witness for C3 at a concrete two-passage corpus with `k = 2`. -/
theorem retrieve_length_eq_min_witness :
    (1 ≤ 2 ∧ 1 ≤ texts2.length) ∧
    ((retrieve sim0 texts2 meta2 "q" 2).length = min 2 texts2.length ∧
      (texts2.length ≤ 2 →
        ((retrieve sim0 texts2 meta2 "q" 2).map (fun r => r.passage)).Perm texts2)) :=
  ⟨⟨by decide, by decide⟩,
    retrieve_length_eq_min sim0 texts2 meta2 "q" 2 (by decide) (by decide)⟩

/-- C4: the sequence returned by `retrieve` is sorted non-increasing in the
score field, and — the similarity of a query against any text being
nonnegative, as cosine similarity of nonnegative vectors is — every returned
score is nonnegative. -/
theorem retrieve_sorted_desc_nonneg (sim : String → String → ℚ)
    (texts : List String) (meta : List (String × String × List String))
    (q : String) (k : ℕ) (hpos : ∀ t, 0 ≤ sim q t) :
    List.Sorted (fun a b : RetrievedPassage => b.score ≤ a.score)
      (retrieve sim texts meta q k) ∧
    ∀ r ∈ retrieve sim texts meta q k, 0 ≤ r.score := by
  constructor
  · rw [retrieve, List.Sorted, List.pairwise_map]
    exact List.Pairwise.imp (fun {i j} h => idxLe_le h) (topIdx_pairwise sim texts q k)
  · intro r hr
    rw [retrieve] at hr
    obtain ⟨i, -, rfl⟩ := List.mem_map.mp hr
    exact simsOf_getD_nonneg hpos texts i

/-- Witness for C4 at the constant-zero similarity on the two-passage corpus. -/
theorem retrieve_sorted_desc_nonneg_witness :
    List.Sorted (fun a b : RetrievedPassage => b.score ≤ a.score)
      (retrieve sim0 texts2 meta2 "q" 2) ∧
    ∀ r ∈ retrieve sim0 texts2 meta2 "q" 2, 0 ≤ r.score :=
  retrieve_sorted_desc_nonneg sim0 texts2 meta2 "q" 2 (fun _ => le_refl 0)

/-- C10: every passage `retrieve` returns is an internally consistent
projection of a single corpus position `i`: score, text and the three
metadata fields all come from position `i` of the parallel-indexed text and
metadata lists built from the same loaded docs. -/
theorem retrieve_entry_is_corpus_projection (sim : String → String → ℚ)
    (docs : List Doc) (texts : List String) (q : String) (k : ℕ)
    (ht : textsOf docs = some texts) (r : RetrievedPassage)
    (hr : r ∈ retrieve sim texts (metaOf docs) q k) :
    ∃ i, i < texts.length ∧ i < (metaOf docs).length ∧
      r.score = sim q (texts.getD i "") ∧
      r.passage = texts.getD i "" ∧
      r.id = ((metaOf docs).getD i ("", "", [])).1 ∧
      r.source = ((metaOf docs).getD i ("", "", [])).2.1 ∧
      r.themes = ((metaOf docs).getD i ("", "", [])).2.2 := by
  rw [retrieve] at hr
  obtain ⟨i, hi, rfl⟩ := List.mem_map.mp hr
  have hlt := mem_topIdx hi
  have hm : (metaOf docs).length = texts.length := by
    rw [metaOf, List.length_map, ← textsOf_length docs texts ht]
  refine ⟨i, hlt, by omega, ?_, rfl, rfl, rfl, rfl⟩
  simp only [simsOf]
  rw [List.getD_eq_getElem _ _ (by simpa using hlt), List.getElem_map,
    List.getD_eq_getElem _ _ hlt]

def docs1 : List Doc :=
  [{ id := some "1", source := some "src", theme := some ["t"], passage := some "alpha" }]

def r10 : RetrievedPassage :=
  { score := 0, id := "1", source := "src", themes := ["t"], passage := "alpha" }

/-- Witness for C10 at a concrete one-record corpus. -/
theorem retrieve_entry_is_corpus_projection_witness :
    (textsOf docs1 = some ["alpha"] ∧
      r10 ∈ retrieve sim0 ["alpha"] (metaOf docs1) "q" 1) ∧
    (∃ i, i < (["alpha"] : List String).length ∧ i < (metaOf docs1).length ∧
      r10.score = sim0 "q" ((["alpha"] : List String).getD i "") ∧
      r10.passage = (["alpha"] : List String).getD i "" ∧
      r10.id = ((metaOf docs1).getD i ("", "", [])).1 ∧
      r10.source = ((metaOf docs1).getD i ("", "", [])).2.1 ∧
      r10.themes = ((metaOf docs1).getD i ("", "", [])).2.2) :=
  ⟨⟨rfl, by with_unfolding_all decide⟩,
    retrieve_entry_is_corpus_projection sim0 docs1 ["alpha"] "q" 1 rfl r10
      (by with_unfolding_all decide)⟩

/-! ### Answer composer (`reason`, src/app.py lines 69-107) -/

/-- The structured result `reason` returns. -/
structure AnswerResult where
  context : String
  principles : List String
  options : List String
  tradeoffs : List String
  recommendation : String
  confidence : String
  citations : List String
deriving DecidableEq

def UNCERTAIN_MSG : String := "Uncertain. Acquire more context, then reconsider."

def CONFIDENT_MSG : String :=
  "Prioritize non-harm and truthfulness; take a reversible step and review impact. If people’s safety/rights are involved, escalate to a human."

/-- Python's `f"{conf:.2f}"`: round to two decimal places, ties to even. -/
def fmt2 (x : ℚ) : String :=
  let y := x * 100
  let f : ℤ := Int.fdiv y.num y.den
  let r := y - f
  let n : ℤ := if r < 1/2 then f else if 1/2 < r then f + 1 else if 2 ∣ f then f else f + 1
  let w := n / 100
  let c := (n % 100).toNat
  let pad := if c < 10 then "0" else ""
  toString w ++ "." ++ pad ++ toString c

/-- `np.mean([p["score"] for p in passages])`. -/
def meanScore (passages : List RetrievedPassage) : ℚ :=
  (passages.map (fun p => p.score)).sum / passages.length

/-- `conf = np.mean([...]) if passages else 0.0` (line 89). -/
def confOf (passages : List RetrievedPassage) : ℚ :=
  if passages.isEmpty then 0 else meanScore passages

/-- `reason` (lines 69-107): the rule-based answer template. -/
def reason (query : String) (passages : List RetrievedPassage) : AnswerResult :=
  { context := query.trim
    principles := passages.map (fun p =>
      let label := if p.themes.isEmpty then "principle" else String.intercalate ", " p.themes
      "- From " ++ p.source ++ ": _" ++ label ++ "_ — “" ++ p.passage ++ "”")
    options :=
      ["Act cautiously with minimal reversible steps.",
       "Seek more information or a second perspective.",
       "Defer to a qualified human if stakes are high."]
    tradeoffs :=
      ["- Caution reduces harm but may delay benefits.",
       "- Gathering info takes time but improves accuracy.",
       "- Deferring improves safety but reduces autonomy."]
    recommendation := if confOf passages < 1/20 then UNCERTAIN_MSG else CONFIDENT_MSG
    confidence := fmt2 (confOf passages)
    citations := passages.map (fun p => p.id ++ " — " ++ p.source) }

/-- A score-only passage for concrete evaluations. -/
def mkP (s : ℚ) : RetrievedPassage :=
  { score := s, id := "", source := "", themes := [], passage := "" }

/-- C5: the confidence field is the arithmetic mean of the passages' scores
formatted to two decimal places; for scores `[0.9, 0.6, 0.3]` it is `"0.60"`
and for an empty passage sequence it is `"0.00"`. -/
theorem reason_confidence_is_mean (q : String) (ps : List RetrievedPassage) :
    (ps ≠ [] → (reason q ps).confidence = fmt2 (meanScore ps)) ∧
    (reason q [mkP (9/10), mkP (6/10), mkP (3/10)]).confidence = "0.60" ∧
    (reason q []).confidence = "0.00" := by
  refine ⟨?_, ?_, ?_⟩
  · intro hne
    have h : (reason q ps).confidence = fmt2 (confOf ps) := rfl
    rw [h, confOf, if_neg (by simpa [List.isEmpty_iff] using hne)]
  · have h : (reason q [mkP (9/10), mkP (6/10), mkP (3/10)]).confidence =
        fmt2 (confOf [mkP (9/10), mkP (6/10), mkP (3/10)]) := rfl
    rw [h]
    with_unfolding_all decide
  · have h : (reason q []).confidence = fmt2 (confOf []) := rfl
    rw [h]
    with_unfolding_all decide

/-- Witness for C5 on a nonempty passage list. -/
theorem reason_confidence_is_mean_witness :
    ([mkP 1] ≠ ([] : List RetrievedPassage)) ∧
    (reason "x" [mkP 1]).confidence = fmt2 (meanScore [mkP 1]) :=
  ⟨by simp, (reason_confidence_is_mean "x" [mkP 1]).1 (by simp)⟩

/-- C6: the recommendation is chosen by a single threshold at 0.05 on the mean
score (0 when no passages), with the boundary on the confident side: below
0.05 is the uncertain message, at or above 0.05 the confident message. -/
theorem reason_recommendation_threshold (q : String) (ps : List RetrievedPassage) :
    (confOf ps < 1/20 → (reason q ps).recommendation = UNCERTAIN_MSG) ∧
    (1/20 ≤ confOf ps → (reason q ps).recommendation = CONFIDENT_MSG) := by
  constructor
  · intro h
    show (if confOf ps < 1/20 then UNCERTAIN_MSG else CONFIDENT_MSG) = UNCERTAIN_MSG
    rw [if_pos h]
  · intro h
    show (if confOf ps < 1/20 then UNCERTAIN_MSG else CONFIDENT_MSG) = CONFIDENT_MSG
    rw [if_neg (not_lt.mpr h)]

/-- Witness for C6 exercising a mean just below 0.05 and exactly 0.05. -/
theorem reason_recommendation_threshold_witness :
    (confOf [mkP (49999/1000000)] < 1/20 ∧
      (reason "x" [mkP (49999/1000000)]).recommendation = UNCERTAIN_MSG) ∧
    (1/20 ≤ confOf [mkP (1/20)] ∧
      (reason "x" [mkP (1/20)]).recommendation = CONFIDENT_MSG) :=
  ⟨⟨by with_unfolding_all decide,
      (reason_recommendation_threshold "x" [mkP (49999/1000000)]).1
        (by with_unfolding_all decide)⟩,
    ⟨by with_unfolding_all decide,
      (reason_recommendation_threshold "x" [mkP (1/20)]).2
        (by with_unfolding_all decide)⟩⟩

/-- C7: on an empty passage sequence `reason` is fully defined, with
confidence `"0.00"`, empty principles and citations, and the uncertain
recommendation. -/
theorem reason_empty_passages (q : String) :
    (reason q []).confidence = "0.00" ∧
    (reason q []).principles = [] ∧
    (reason q []).citations = [] ∧
    (reason q []).recommendation = UNCERTAIN_MSG := by
  refine ⟨?_, rfl, rfl, ?_⟩
  · have h : (reason q []).confidence = fmt2 (confOf []) := rfl
    rw [h]
    with_unfolding_all decide
  · show (if confOf [] < 1/20 then UNCERTAIN_MSG else CONFIDENT_MSG) = UNCERTAIN_MSG
    rw [if_pos (by with_unfolding_all decide)]
